import Mathlib

/-!
Verification of the TD update-rule library in `algos.py`: the n-step
bootstrapped return engine (`NStepAlgo`), its five return policies
(`Sarsa`, `ExpectedSarsa`, `QLearn`, `TreeLearn`, `OnPolicyTreeLearn`),
the model-based planners (`Dyna`, `PrioritizedSweep`) and the
reward-shaping wrapper (`ExploreBonus`).

Modelling conventions:
- rewards, discount factors and value estimates are rationals (`ℚ`);
- time indices are integers (`ℤ`), as in Python;
- a Python runtime error (unpacking `None`, missing dict key,
  `set.remove` on an absent element) is `none` in the `Option` monad;
- the agent collaborator is a record of its query methods; its `update`
  method mutates external state and is passed as an explicit function
  `Agent → ℚ → S → A → Agent`;
- Python's `dict` is an association list with first-occurrence lookup and
  in-place overwrite; Python's `set` is a duplicate-free list;
- `heapq` is modelled by its contract: a min-structure, here a list kept
  sorted by the natural (lexicographic) tuple order, `heappush` an
  ordered insert and `heappop` taking the head;
- `random.choices(keys, k)` returns some list of `k` elements of `keys`;
  it is modelled by an arbitrary sampled list constrained to the keys.
-/

/-- Agent collaborator, external to the core: value queries, policy
queries and action selection.  `action_spec` stands for
`agent.env.action_spec`. -/
structure Agent (S A : Type) where
  q : S → A → ℚ
  best_action : S → A
  best_action_val : S → ℚ
  action_prob : S → A → ℚ
  action_spec : S → List A
  get_action : S → A

/-- Modelled from the spec: `Command` lives in `baseagent.py`, which is
not under `src/`.  Per the spec it is the tuple
`(shouldUpdate, returnValue, targetState, targetAction, isTerminalCredit)`,
where `shouldUpdate = false` means "not enough history yet, do nothing". -/
structure Command (S A : Type) where
  update : Bool
  ret : Option ℚ
  s : Option S
  a : Option A
  terminate : Bool
deriving DecidableEq

/-- Python `Command(update=False)`. -/
def Command.noUpdate {S A : Type} : Command S A :=
  ⟨false, none, none, none, false⟩

/-- Python `Command(ret, tgt_s, tgt_a, terminate)`. -/
def Command.full {S A : Type} (ret : ℚ) (s : S) (a : A) (terminate : Bool) :
    Command S A :=
  ⟨true, some ret, some s, some a, terminate⟩

/-- Modelled from the spec: `Buffer` lives in `utils.py`, which is not
under `src/`.  Per the spec it is a fixed-capacity indexed store with
wrap-around addressing by absolute step index and a default fill value. -/
structure Buffer (α : Type) where
  cap : ℕ
  dflt : α
  data : List α
deriving DecidableEq

/-- Fresh buffer of capacity `cap` filled with the default value. -/
def Buffer.new {α : Type} (cap : ℕ) (dflt : α) : Buffer α :=
  ⟨cap, dflt, List.replicate cap dflt⟩

/-- Wrap-around read at absolute index `i`. -/
def Buffer.get {α : Type} (b : Buffer α) (i : ℤ) : α :=
  b.data.getD ((i % (b.cap : ℤ)).toNat) b.dflt

/-- Wrap-around write at absolute index `i`. -/
def Buffer.set {α : Type} (b : Buffer α) (i : ℤ) (v : α) : Buffer α :=
  { b with data := b.data.set ((i % (b.cap : ℤ)).toNat) v }

/-- The two algorithm-specific hooks of an n-step return policy:
`end_return` is the bootstrap seed, `step_return` the backward fold. -/
structure Policy (S A : Type) where
  end_return : Agent S A → S → A → ℚ → ℚ
  step_return : Agent S A → S → A → ℚ → ℚ → ℚ

/-- A ring-buffer slot: `(s, a, r)`, or `none` for the `(None, None, None)`
default fill. -/
abbrev Slot (S A : Type) : Type := Option (S × A × ℚ)

/-- Episode state of `NStepAlgo`: the ring buffer and the episode horizon
`T_step` (`none` encodes `np.inf`). -/
structure NStepState (S A : Type) where
  buffer : Buffer (Slot S A)
  T_step : Option ℤ

namespace NStepAlgo

/-- `NStepAlgo.init_episode`: fresh buffer of capacity `nstep + 1`
default-filled with `(None, None, None)`, slot 0 set to `(s, a, 0)`,
`T_step` reset to infinity. -/
def init_episode {S A : Type} (nstep : ℕ) (s : S) (a : A) : NStepState S A :=
  ⟨(Buffer.new (nstep + 1) none).set 0 (some (s, a, 0)), none⟩

/-- Python `t < self.T_step` where `T_step` may be `np.inf`. -/
def tLt (t : ℤ) : Option ℤ → Bool
  | none => true
  | some T => t < T

/-- Python `min(t + 1, self.T_step)` where `T_step` may be `np.inf`. -/
def endT (t : ℤ) : Option ℤ → ℤ
  | none => t + 1
  | some T => min (t + 1) T

/-- Python `tgt_t >= self.T_step - 1`; false while `T_step` is `np.inf`. -/
def tgtAtHorizon (tgt_t : ℤ) : Option ℤ → Bool
  | none => false
  | some T => T - 1 ≤ tgt_t

/-- The state-mutating prefix of `NStepAlgo.__call__`: sets `T_step` on
the first terminal transition, then stores `(new_s, new_a, r)` at slot
`t + 1` when `t < T_step`. -/
def stepState {S A : Type} (st : NStepState S A) (r : ℚ) (new_s : S)
    (new_a : A) (t : ℤ) (is_terminal : Bool) : NStepState S A :=
  let T1 : Option ℤ :=
    if st.T_step.isNone && is_terminal then some (t + 1) else st.T_step
  let buf1 : Buffer (Slot S A) :=
    if tLt t T1 then st.buffer.set (t + 1) (some (new_s, new_a, r))
    else st.buffer
  ⟨buf1, T1⟩

/-- Python `range(start, stop, -1)` as the list
`[start, start - 1, ..., stop + 1]`. -/
def rangeDesc (start stop : ℤ) : List ℤ :=
  (List.range (start - stop).toNat).map (fun (k : ℕ) => start - (k : ℤ))

/-- `NStepAlgo.get_return`: seed with `end_return` at `min(t+1, T_step)`,
then fold `step_return` backward down to `tgt_t + 1`.  Reading a
default-filled slot is a Python crash, hence `none`. -/
def get_return {S A : Type} (P : Policy S A) (agent : Agent S A)
    (st : NStepState S A) (t tgt_t : ℤ) : Option ℚ := do
  let end_t := endT t st.T_step
  let (s0, a0, r0) ← st.buffer.get end_t
  (rangeDesc (end_t - 1) tgt_t).foldlM
    (fun ret i => do
      let (s, a, r) ← st.buffer.get i
      pure (P.step_return agent s a r ret))
    (P.end_return agent s0 a0 r0)

/-- `NStepAlgo.__call__`: update `T_step` and the buffer, emit
`Command(update=False)` when `tgt_t < 0`, otherwise credit the n-step
return to the `(state, action)` stored at slot `tgt_t`. -/
def call {S A : Type} (P : Policy S A) (nstep : ℕ) (agent : Agent S A)
    (st : NStepState S A) (s : S) (a : A) (r : ℚ) (new_s : S) (new_a : A)
    (t : ℤ) (is_terminal : Bool) : Option (Command S A × NStepState S A) :=
  let st1 := stepState st r new_s new_a t is_terminal
  let tgt_t := t - nstep + 1
  if tgt_t < 0 then some (Command.noUpdate, st1)
  else do
    let (tgt_s, tgt_a, _) ← st1.buffer.get tgt_t
    let ret ← get_return P agent st1 t tgt_t
    some (Command.full ret tgt_s tgt_a (tgtAtHorizon tgt_t st1.T_step), st1)

end NStepAlgo

/-- `Sarsa`: `end_return = r + γ·Q(s,a)`, `step_return = r + γ·ret`. -/
def Sarsa (S A : Type) (gamma : ℚ) : Policy S A where
  end_return agent s a r := r + gamma * agent.q s a
  step_return _ _ _ r ret := r + gamma * ret

/-- `ExpectedSarsa`: `end_return = r + γ·Σ_a π(a|s)·Q(s,a)`,
`step_return = r + γ·ret`. -/
def ExpectedSarsa (S A : Type) (gamma : ℚ) : Policy S A where
  end_return agent s _ r :=
    r + gamma *
      ((agent.action_spec s).map
        (fun cur_a => agent.action_prob s cur_a * agent.q s cur_a)).sum
  step_return _ _ _ r ret := r + gamma * ret

/-- `QLearn`: `end_return = r + γ·max_a Q(s,a)`, `step_return = r + γ·ret`. -/
def QLearn (S A : Type) (gamma : ℚ) : Policy S A where
  end_return agent s _ r := r + gamma * agent.best_action_val s
  step_return _ _ _ r ret := r + gamma * ret

/-- `TreeLearn`: `end_return = r + γ·max_a Q(s,a)`;
`step_return = r + γ·(ret if a == best_a else Q(s, best_a))`. -/
def TreeLearn (S A : Type) [DecidableEq A] (gamma : ℚ) : Policy S A where
  end_return agent s _ r := r + gamma * agent.best_action_val s
  step_return agent s a r ret :=
    let best_a := agent.best_action s
    r + gamma * (if a = best_a then ret else agent.q s best_a)

/-- `OnPolicyTreeLearn`: `end_return = r + γ·max_a Q(s,a)`;
`step_return = r + γ·Σ_a π(a|s)·(ret if a == taken else Q(s,a))`. -/
def OnPolicyTreeLearn (S A : Type) [DecidableEq A] (gamma : ℚ) : Policy S A where
  end_return agent s _ r := r + gamma * agent.best_action_val s
  step_return agent s a r ret :=
    r + gamma *
      ((agent.action_spec s).map
        (fun cur_a =>
          agent.action_prob s cur_a *
            (if cur_a = a then ret else agent.q s cur_a))).sum

/-- First-occurrence lookup in an association list (Python `dict` access). -/
def assocLookup {K V : Type} [DecidableEq K] (k : K) : List (K × V) → Option V
  | [] => none
  | (k', v) :: rest => if k = k' then some v else assocLookup k rest

/-- Python `d[k] = v`: overwrite the first binding in place, or append a
new binding (insertion order preserved). -/
def assocInsert {K V : Type} [DecidableEq K] (k : K) (v : V) :
    List (K × V) → List (K × V)
  | [] => [(k, v)]
  | (k', v') :: rest =>
    if k = k' then (k, v) :: rest else (k', v') :: assocInsert k v rest

/-- Python `d.keys()`. -/
def assocKeys {K V : Type} (l : List (K × V)) : List K := l.map Prod.fst

/-- Python `set.add`: no-op when the element is already present. -/
def setAdd {α : Type} [DecidableEq α] (x : α) (l : List α) : List α :=
  if x ∈ l then l else l ++ [x]

/-- Python `set.remove`: `KeyError` (hence `none`) when absent. -/
def setRemove {α : Type} [DecidableEq α] (x : α) (l : List α) :
    Option (List α) :=
  if x ∈ l then some (l.erase x) else none

/-- Dyna's Transition Model: `(state, action) → (nextState, reward)`. -/
abbrev Model (S A : Type) : Type := List ((S × A) × (S × ℚ))

namespace Dyna

/-- `Dyna.update`: record the observed transition, last-write-wins. -/
def update {S A : Type} [DecidableEq S] [DecidableEq A] (model : Model S A)
    (s : S) (a : A) (new_s : S) (r : ℚ) : Model S A :=
  assocInsert (s, a) (new_s, r) model

/-- `Dyna.step_sim`: look up the modeled successor of `(s, a)` (a missing
key is a Python `KeyError`), pick `new_a` by the agent's policy, and apply
the one-step planning return directly to the agent's value store via the
external `upd` function. -/
def step_sim {S A : Type} [DecidableEq S] [DecidableEq A]
    (plan : Policy S A) (upd : Agent S A → ℚ → S → A → Agent S A)
    (model : Model S A) (agent : Agent S A) (s : S) (a : A) :
    Option (Agent S A) := do
  let (new_s, r) ← assocLookup (s, a) model
  let new_a := agent.get_action new_s
  let ret := plan.end_return agent new_s new_a r
  pure (upd agent ret s a)

/-- `Dyna.simulate`: replay each pair of the sampled list `samp`, which
stands for `random.choices(list(model.keys()), k=nsim)`. -/
def simulate {S A : Type} [DecidableEq S] [DecidableEq A]
    (plan : Policy S A) (upd : Agent S A → ℚ → S → A → Agent S A)
    (model : Model S A) (samp : List (S × A)) (agent : Agent S A) :
    Option (Agent S A) :=
  samp.foldlM (fun ag p => step_sim plan upd model ag p.1 p.2) agent

/-- `Dyna.__call__`: on a non-terminal transition, record it in the model
and run the simulated replays; in all cases delegate the real transition
to the inner update rule `innerStep` (with inner state `σ`). -/
def call {S A σ : Type} [DecidableEq S] [DecidableEq A]
    (plan : Policy S A) (upd : Agent S A → ℚ → S → A → Agent S A)
    (innerStep : Agent S A → σ → S → A → ℚ → S → A → ℤ → Bool →
      Option (Command S A × σ))
    (samp : List (S × A)) (agent : Agent S A) (model : Model S A)
    (innerSt : σ) (s : S) (a : A) (r : ℚ) (new_s : S) (new_a : A) (t : ℤ)
    (is_terminal : Bool) :
    Option (Command S A × Agent S A × Model S A × σ) := do
  let (agent1, model1) ←
    if is_terminal then pure (agent, model)
    else do
      let model1 := update model s a new_s r
      let agent1 ← simulate plan upd model1 samp agent
      pure (agent1, model1)
  let (cmd, innerSt1) ←
    innerStep agent1 innerSt s a r new_s new_a t is_terminal
  pure (cmd, agent1, model1, innerSt1)

end Dyna

/-- The natural (lexicographic) order on Python tuples `(state, action)`,
the order `heapq` compares heap entries by. -/
def tupLe {S A : Type} [LinearOrder S] [LinearOrder A] (p q : S × A) : Prop :=
  p.1 < q.1 ∨ (p.1 = q.1 ∧ p.2 ≤ q.2)

instance {S A : Type} [LinearOrder S] [LinearOrder A] :
    DecidableRel (@tupLe S A _ _) := fun p q => by
  unfold tupLe; infer_instance

instance {S A : Type} [LinearOrder S] [LinearOrder A] :
    IsTotal (S × A) tupLe where
  total p q := by
    rcases lt_trichotomy p.1 q.1 with h | h | h
    · exact Or.inl (Or.inl h)
    · rcases le_total p.2 q.2 with h2 | h2
      · exact Or.inl (Or.inr ⟨h, h2⟩)
      · exact Or.inr (Or.inr ⟨h.symm, h2⟩)
    · exact Or.inr (Or.inl h)

instance {S A : Type} [LinearOrder S] [LinearOrder A] :
    IsTrans (S × A) tupLe where
  trans p q u hpq hqu := by
    rcases hpq with h | ⟨he, h2⟩
    · rcases hqu with h' | ⟨he', _⟩
      · exact Or.inl (h.trans h')
      · exact Or.inl (he' ▸ h)
    · rcases hqu with h' | ⟨he', h2'⟩
      · exact Or.inl (he ▸ h')
      · exact Or.inr ⟨he.trans he', h2.trans h2'⟩

/-- State owned by a `PrioritizedSweep` instance: the Transition Model,
the priority queue (modelled as a `tupLe`-sorted list) and the Reverse
Model `nextState → set of predecessor pairs`. -/
structure PSState (S A : Type) where
  model : Model S A
  pq : List (S × A)
  rev_model : List (S × List (S × A))
deriving DecidableEq

namespace PrioritizedSweep

/-- `PrioritizedSweep.update_pq`: compute the one-step planning return for
`(new_s, new_a, r)` and push the raw pair `(s, a)` exactly when the
residual against `Q(s, a)` strictly exceeds `theta`. -/
def update_pq {S A : Type} [LinearOrder S] [LinearOrder A]
    (plan : Policy S A) (theta : ℚ) (agent : Agent S A) (s : S) (a : A)
    (new_s : S) (new_a : A) (r : ℚ) (pq : List (S × A)) : List (S × A) :=
  let ret := plan.end_return agent new_s new_a r
  if theta < |ret - agent.q s a| then List.orderedInsert tupLe (s, a) pq
  else pq

/-- `PrioritizedSweep.update`: maintain the reverse model (dropping the
stale predecessor entry when `(s, a)` is remapped), refresh the priority
queue, then record the transition in the base model. -/
def update {S A : Type} [LinearOrder S] [LinearOrder A]
    (plan : Policy S A) (theta : ℚ) (agent : Agent S A) (st : PSState S A)
    (s : S) (a : A) (new_s : S) (new_a : A) (r : ℚ) :
    Option (PSState S A) := do
  let rm1 ←
    match assocLookup (s, a) st.model with
    | some (old_new_s, _) => do
      let preds ← assocLookup old_new_s st.rev_model
      let preds1 ← setRemove (s, a) preds
      pure (assocInsert old_new_s preds1 st.rev_model)
    | none => pure st.rev_model
  let rm2 :=
    match assocLookup new_s rm1 with
    | none => assocInsert new_s [(s, a)] rm1
    | some preds => assocInsert new_s (setAdd (s, a) preds) rm1
  let pq1 := update_pq plan theta agent s a new_s new_a r st.pq
  pure ⟨Dyna.update st.model s a new_s r, pq1, rm2⟩

/-- The predecessor sweep at the end of one `simulate` iteration: for
every predecessor of the popped state `s`, recompute its residual with
its modeled reward and re-enqueue it when the residual exceeds `theta`. -/
def sweepPreds {S A : Type} [LinearOrder S] [LinearOrder A]
    (plan : Policy S A) (theta : ℚ) (agent : Agent S A) (st : PSState S A)
    (s : S) (a : A) (pq : List (S × A)) : Option (List (S × A)) :=
  match assocLookup s st.rev_model with
  | none => pure pq
  | some preds =>
    preds.foldlM
      (fun q p => do
        let (_, r) ← assocLookup p st.model
        pure (update_pq plan theta agent p.1 p.2 s a r q))
      pq

/-- One iteration of `PrioritizedSweep.simulate`'s loop body: pop the
head pair, replay it as in Dyna, then sweep its predecessors. -/
def simStep {S A : Type} [LinearOrder S] [LinearOrder A]
    (plan : Policy S A) (upd : Agent S A → ℚ → S → A → Agent S A)
    (theta : ℚ) (agent : Agent S A) (st : PSState S A) (s : S) (a : A)
    (rest : List (S × A)) : Option (Agent S A × PSState S A) := do
  let agent1 ← Dyna.step_sim plan upd st.model agent s a
  let pq1 ← sweepPreds plan theta agent1 st s a rest
  pure (agent1, { st with pq := pq1 })

/-- `PrioritizedSweep.simulate`: up to `nsim` iterations, stopping when
the queue is empty; also returns the list of pairs replayed, in order. -/
def simulate {S A : Type} [LinearOrder S] [LinearOrder A]
    (plan : Policy S A) (upd : Agent S A → ℚ → S → A → Agent S A)
    (theta : ℚ) (agent : Agent S A) (st : PSState S A) :
    ℕ → Option (Agent S A × PSState S A × List (S × A))
  | 0 => some (agent, st, [])
  | nsim + 1 =>
    match st.pq with
    | [] => some (agent, st, [])
    | (s, a) :: rest => do
      let (agent1, st1) ← simStep plan upd theta agent st s a rest
      let (agent2, st2, log) ← simulate plan upd theta agent1 st1 nsim
      pure (agent2, st2, (s, a) :: log)

/-- `PrioritizedSweep.__call__` (inherited from `Dyna.__call__`): on a
non-terminal transition, update the models and queue then run the
prioritized replay; in all cases delegate to the inner update rule. -/
def call {S A σ : Type} [LinearOrder S] [LinearOrder A]
    (plan : Policy S A) (upd : Agent S A → ℚ → S → A → Agent S A)
    (theta : ℚ) (nsim : ℕ)
    (innerStep : Agent S A → σ → S → A → ℚ → S → A → ℤ → Bool →
      Option (Command S A × σ))
    (agent : Agent S A) (st : PSState S A) (innerSt : σ) (s : S) (a : A)
    (r : ℚ) (new_s : S) (new_a : A) (t : ℤ) (is_terminal : Bool) :
    Option (Command S A × Agent S A × PSState S A × σ) := do
  let (agent1, st1) ←
    if is_terminal then pure (agent, st)
    else do
      let st1 ← update plan theta agent st s a new_s new_a r
      let (agent1, st2, _) ← simulate plan upd theta agent st1 nsim
      pure (agent1, st2)
  let (cmd, innerSt1) ←
    innerStep agent1 innerSt s a r new_s new_a t is_terminal
  pure (cmd, agent1, st1, innerSt1)

end PrioritizedSweep

namespace ExploreBonus

/-- Last-visit table of `ExploreBonus`, recreated each episode. -/
abbrev LastVisit (S A : Type) : Type := List ((S × A) × ℤ)

/-- `ExploreBonus.init_episode` resets the table to empty. -/
def init_episode {S A : Type} : LastVisit S A := []

/-- `ExploreBonus.last_visit`: table entry, defaulting to 0 for a pair
never visited this episode. -/
def last_visit {S A : Type} [DecidableEq S] [DecidableEq A]
    (lv : LastVisit S A) (s : S) (a : A) : ℤ :=
  (assocLookup (s, a) lv).getD 0

/-- The shaped reward `r + kappa * sqrt(t - lastVisit)` of
`ExploreBonus.__call__` (`np.sqrt` over the reals). -/
noncomputable def shaped (kappa : ℝ) (r : ℝ) (t lv : ℤ) : ℝ :=
  r + kappa * Real.sqrt ((t : ℝ) - (lv : ℝ))

/-- `ExploreBonus.__call__`: shape the reward, stamp the last-visit
table with `t`, and delegate to the inner rule with the shaped reward. -/
noncomputable def call {S A β : Type} [DecidableEq S] [DecidableEq A]
    (inner : S → A → ℝ → S → A → ℤ → Bool → β) (kappa : ℝ)
    (lv : LastVisit S A) (s : S) (a : A) (r : ℝ) (new_s : S) (new_a : A)
    (t : ℤ) (is_terminal : Bool) : β × LastVisit S A :=
  let r1 := shaped kappa r t (last_visit lv s a)
  (inner s a r1 new_s new_a t is_terminal, assocInsert (s, a) t lv)

end ExploreBonus

/-- Transcribed from the spec sentence for the backward loop: for `i`
from `end_t - 1` down to `tgt_t + 1` (inclusive), fold
`ret = stepReturn(agent, buffer[i], ret)`, written as a direct
descending recursion. -/
def specLoop {S A : Type} (P : Policy S A) (agent : Agent S A)
    (buf : Buffer (Slot S A)) (tgt_t : ℤ) (ret : ℚ) (i : ℤ) : Option ℚ :=
  if h : tgt_t < i then
    match buf.get i with
    | none => none
    | some (s, a, r) =>
      specLoop P agent buf tgt_t (P.step_return agent s a r ret) (i - 1)
  else some ret
termination_by (i - tgt_t).toNat
decreasing_by omega

/-- Transcribed from the spec sentence for the backward return
computation: `end_t = min(t+1, T_step)`, seed
`ret = terminalReturn(agent, buffer[end_t])`, then run the backward loop
from `end_t - 1` down to `tgt_t + 1`. -/
def specBackwardReturn {S A : Type} (P : Policy S A) (agent : Agent S A)
    (buf : Buffer (Slot S A)) (T_step : Option ℤ) (t tgt_t : ℤ) :
    Option ℚ :=
  let end_t := NStepAlgo.endT t T_step
  match buf.get end_t with
  | none => none
  | some (s, a, r) =>
    specLoop P agent buf tgt_t (P.end_return agent s a r) (end_t - 1)

/-- Discounted sum `Σ_(k < n) g^k * rew (lo + k)` of the rewards stored
at slots `lo, lo + 1, ...`; transcribed from the spec sentence about the
discounted sum of the buffered rewards. -/
def discountedSum (g : ℚ) (rew : ℤ → ℚ) (lo : ℤ) (n : ℕ) : ℚ :=
  ((List.range n).map (fun (k : ℕ) => g ^ k * rew (lo + (k : ℤ)))).sum

/-- Fold the state-mutating prefix of `NStepAlgo.__call__` over a list
of call arguments `(r, new_s, new_a, t, is_terminal)`. -/
def runSteps {S A : Type} (st : NStepState S A) :
    List (ℚ × S × A × ℤ × Bool) → NStepState S A
  | [] => st
  | (r, ns, na, t, term) :: rest =>
    runSteps (NStepAlgo.stepState st r ns na t term) rest

/-- Concrete agent for the end-to-end scenario: `Q(1, 0) = 2`, all other
value estimates and queries zero. -/
def c2Agent : Agent ℕ ℕ where
  q s a := if s = 1 ∧ a = 0 then 2 else 0
  best_action _ := 0
  best_action_val _ := 0
  action_prob _ _ := 0
  action_spec _ := []
  get_action _ := 0

/-- Concrete agent with `Q(1, 0) = 5` (a nonzero estimate at the stored
terminal pair), all other queries zero. -/
def c3Agent : Agent ℕ ℕ where
  q s a := if s = 1 ∧ a = 0 then 5 else 0
  best_action _ := 0
  best_action_val _ := 0
  action_prob _ _ := 0
  action_spec _ := []
  get_action _ := 0

/-- Episode state after `init_episode(0, 0)` followed by the terminal
transition `(r=1, new_s=1, new_a=0, t=0, terminal=true)` with
`nstep = 1`. -/
def c3St : NStepState ℕ ℕ :=
  NStepAlgo.stepState (NStepAlgo.init_episode 1 0 0) 1 1 0 0 true

/-- The rewards stored in `c3St`'s buffer, by absolute slot index. -/
def c3Rho : ℤ → ℚ := fun i => if i = 1 then 1 else 0

/-- The states stored in `c3St`'s buffer, by absolute slot index. -/
def c3Sig : ℤ → ℕ := fun i => if i = 1 then 1 else 0

/-- The actions stored in `c3St`'s buffer, by absolute slot index. -/
def c3Alp : ℤ → ℕ := fun _ => 0

/-- Agent with all value estimates and queries zero. -/
def zeroAgent : Agent ℕ ℕ where
  q _ _ := 0
  best_action _ := 0
  best_action_val _ := 0
  action_prob _ _ := 0
  action_spec _ := []
  get_action _ := 0

/-- External `agent.update` that leaves the value store unchanged. -/
def idUpd : Agent ℕ ℕ → ℚ → ℕ → ℕ → Agent ℕ ℕ := fun ag _ _ _ => ag

/-- PrioritizedSweep state after observing the self-loop transition
`(s=0, a=0) → (new_s=0, r=1)` once from the empty state. -/
def c10St1 : PSState ℕ ℕ :=
  ⟨[((0, 0), (0, 1))], [(0, 0)], [(0, [(0, 0)])]⟩

/-- PrioritizedSweep state after observing that self-loop transition a
second time: the queue now holds `(0, 0)` twice. -/
def c10St2 : PSState ℕ ℕ :=
  ⟨[((0, 0), (0, 1))], [(0, 0), (0, 0)], [(0, [(0, 0)])]⟩

lemma Buffer.get_set_ne {α : Type} (b : Buffer α) (i j : ℤ) (v : α)
    (h : (j % (b.cap : ℤ)).toNat ≠ (i % (b.cap : ℤ)).toNat) :
    (b.set j v).get i = b.get i := by
  simp [Buffer.get, Buffer.set, List.getD_eq_getElem?_getD,
    List.getElem?_set_ne h]

lemma Buffer.get_set_self {α : Type} (b : Buffer α) (i : ℤ) (v : α)
    (h : (i % (b.cap : ℤ)).toNat < b.data.length) :
    (b.set i v).get i = v := by
  simp [Buffer.get, Buffer.set, List.getD_eq_getElem?_getD,
    List.getElem?_set_self h]

lemma rangeDesc_eq_nil {start stop : ℤ} (h : start ≤ stop) :
    NStepAlgo.rangeDesc start stop = [] := by
  unfold NStepAlgo.rangeDesc
  have h0 : (start - stop).toNat = 0 := by omega
  simp [h0]

lemma rangeDesc_cons {start stop : ℤ} (h : stop < start) :
    NStepAlgo.rangeDesc start stop
      = start :: NStepAlgo.rangeDesc (start - 1) stop := by
  unfold NStepAlgo.rangeDesc
  have h1 : (start - stop).toNat = (start - 1 - stop).toNat + 1 := by omega
  have h2 : ∀ k : ℕ, start - ((k + 1 : ℕ) : ℤ) = start - 1 - (k : ℤ) := by
    intro k; push_cast; ring
  rw [h1, List.range_succ_eq_map]
  simp only [List.map_cons, List.map_map, Nat.cast_zero, sub_zero]
  congr 1
  apply List.map_congr_left
  intro k _
  simpa [Function.comp] using h2 k

lemma foldlM_eq_specLoop {S A : Type} (P : Policy S A) (agent : Agent S A)
    (buf : Buffer (Slot S A)) (tgt_t : ℤ) :
    ∀ (n : ℕ) (start : ℤ), (start - tgt_t).toNat = n → ∀ (ret : ℚ),
      (NStepAlgo.rangeDesc start tgt_t).foldlM
        (fun ret i => do
          let (s, a, r) ← buf.get i
          pure (P.step_return agent s a r ret)) ret
        = specLoop P agent buf tgt_t ret start := by
  intro n
  induction n with
  | zero =>
    intro start h ret
    rw [rangeDesc_eq_nil (by omega), specLoop, dif_neg (by omega)]
    rfl
  | succ n ih =>
    intro start h ret
    rw [rangeDesc_cons (by omega), List.foldlM_cons, specLoop,
      dif_pos (by omega)]
    cases hbg : buf.get start with
    | none => rfl
    | some v =>
      obtain ⟨s, a, r⟩ := v
      simpa using ih (start - 1) (by omega) (P.step_return agent s a r ret)

lemma mem_assocKeys_insert {K V : Type} [DecidableEq K] (k : K) (v : V)
    (l : List (K × V)) (p : K) :
    p ∈ assocKeys (assocInsert k v l) ↔ p ∈ assocKeys l ∨ p = k := by
  induction l with
  | nil => simp [assocInsert, assocKeys]
  | cons hd tl ih =>
    obtain ⟨k', v'⟩ := hd
    by_cases hk : k = k'
    · subst hk
      simp [assocInsert, assocKeys]
      tauto
    · simp [assocInsert, hk, assocKeys] at ih ⊢
      tauto

/-- C4: within one episode, `T_step` is infinity (`none`) right after
`init_episode`; the first call with a raised terminal flag sets it to
`t + 1`; a call on a state whose `T_step` is already set preserves it
regardless of all arguments, so it keeps its value for the remainder of
the episode. -/
theorem T_step_immutable_once_set {S A : Type} :
    (∀ (nstep : ℕ) (s : S) (a : A),
      (NStepAlgo.init_episode nstep s a).T_step = none) ∧
    (∀ (st : NStepState S A) (r : ℚ) (ns : S) (na : A) (t : ℤ) (term : Bool),
      (NStepAlgo.stepState st r ns na t term).T_step =
        match st.T_step with
        | none => if term then some (t + 1) else none
        | some T => some T) ∧
    (∀ (st : NStepState S A) (trace : List (ℚ × S × A × ℤ × Bool)) (T : ℤ),
      st.T_step = some T → (runSteps st trace).T_step = some T) := by
  refine ⟨fun _ _ _ => rfl, ?_, ?_⟩
  · intro st r ns na t term
    cases hT : st.T_step with
    | none => cases term <;> simp [NStepAlgo.stepState, hT]
    | some T => simp [NStepAlgo.stepState, hT]
  · intro st trace
    induction trace generalizing st with
    | nil => intro T h; exact h
    | cons hd tl ih =>
      obtain ⟨r, ns, na, t, term⟩ := hd
      intro T h
      exact ih _ T (by simp [NStepAlgo.stepState, h])

theorem T_step_immutable_once_set_witness :
    (runSteps (⟨Buffer.new 2 none, some 1⟩ : NStepState ℕ ℕ)
      [(0, 0, 0, 5, true)]).T_step = some 1 :=
  (T_step_immutable_once_set).2.2 _ _ 1 rfl

/-- C2: single-step episode with `γ = 0.9`, `nstep = 1`, Sarsa,
`Q(1, 0) = 2`.  After `init_episode(0, 0)`, the call with transition
`(s=0, a=0, r=1, new_s=1, new_a=0, t=0, terminal=true)` yields a Command
with `update = true`, return `1 + 0.9·2 = 2.8`, credited to state 0 and
action 0, with `terminate = true`. -/
theorem sarsa_single_step_scenario :
    (NStepAlgo.call (Sarsa ℕ ℕ (9/10)) 1 c2Agent
        (NStepAlgo.init_episode 1 0 0) 0 0 1 1 0 0 true).map Prod.fst
      = some (Command.full (14/5) 0 0 true) := by
  simp [NStepAlgo.call, NStepAlgo.stepState, NStepAlgo.init_episode,
    NStepAlgo.get_return, NStepAlgo.endT, NStepAlgo.tLt,
    NStepAlgo.tgtAtHorizon, NStepAlgo.rangeDesc, Buffer.new, Buffer.get,
    Buffer.set, Sarsa, c2Agent, Command.full, Command.noUpdate,
    List.replicate]
  norm_num [c2Agent]

/-- C9: every `ExploreBonus.__call__` passes the shaped reward
`r + kappa * sqrt(t - lastVisit(s, a))` to the inner rule (with
`lastVisit` defaulting to 0 for a pair never visited this episode) and
then stamps the last-visit table entry for `(s, a)` with `t`; the added
bonus is exactly 0 for a pair's first visit at `t = 0`, and for a pair
last visited at `t0` and revisited at `t1 > t0` it is
`kappa * sqrt(t1 - t0)`. -/
theorem explore_bonus_shaping {S A β : Type} [DecidableEq S] [DecidableEq A]
    (inner : S → A → ℝ → S → A → ℤ → Bool → β) (kappa : ℝ)
    (lv : ExploreBonus.LastVisit S A) (s : S) (a : A) (r : ℝ) (ns : S)
    (na : A) (t : ℤ) (term : Bool) :
    (ExploreBonus.call inner kappa lv s a r ns na t term
      = (inner s a
          (r + kappa *
            Real.sqrt ((t : ℝ) - ((ExploreBonus.last_visit lv s a : ℤ) : ℝ)))
          ns na t term,
         assocInsert (s, a) t lv)) ∧
    (assocLookup (s, a) lv = none → ExploreBonus.last_visit lv s a = 0) ∧
    (assocLookup (s, a) lv = none → t = 0 →
      ExploreBonus.shaped kappa r t (ExploreBonus.last_visit lv s a) = r) ∧
    (∀ t0 : ℤ, assocLookup (s, a) lv = some t0 → t0 < t →
      ExploreBonus.shaped kappa r t (ExploreBonus.last_visit lv s a)
        = r + kappa * Real.sqrt ((t : ℝ) - (t0 : ℝ))) := by
  refine ⟨rfl, ?_, ?_, ?_⟩
  · intro h
    simp [ExploreBonus.last_visit, h]
  · intro h ht
    subst ht
    simp [ExploreBonus.shaped, ExploreBonus.last_visit, h]
  · intro t0 h _
    simp [ExploreBonus.shaped, ExploreBonus.last_visit, h]

theorem explore_bonus_shaping_witness :
    ExploreBonus.shaped 1 0 4
        (ExploreBonus.last_visit ([((0, 0), 2)] : ExploreBonus.LastVisit ℕ ℕ)
          0 0)
      = 0 + 1 * Real.sqrt ((4 : ℤ) - ((2 : ℤ) : ℝ)) :=
  (explore_bonus_shaping (fun _ _ _ _ _ _ _ => ()) 1 [((0, 0), 2)] 0 0 0 0 0
    4 false).2.2.2 2 rfl (by decide)

/-- C6: every pair replayed by `Dyna.simulate` is drawn from the sampled
list, which the `random.choices` contract keeps inside the model's key
set, so the model lookup inside each `step_sim` succeeds; and
`Dyna.__call__` leaves the model unchanged on a terminal transition and
otherwise extends its key set with exactly the observed pair `(s, a)`,
so pairs enter the model only as real non-terminal transitions. -/
theorem dyna_simulates_only_observed {S A σ : Type} [DecidableEq S]
    [DecidableEq A] :
    (∀ (plan : Policy S A) (upd : Agent S A → ℚ → S → A → Agent S A)
        (model : Model S A) (samp : List (S × A)) (agent : Agent S A),
      (∀ p ∈ samp, (assocLookup p model).isSome = true) →
      (Dyna.simulate plan upd model samp agent).isSome = true) ∧
    (∀ (plan : Policy S A) (upd : Agent S A → ℚ → S → A → Agent S A)
        (innerStep : Agent S A → σ → S → A → ℚ → S → A → ℤ → Bool →
          Option (Command S A × σ))
        (samp : List (S × A)) (agent : Agent S A) (model : Model S A)
        (innerSt : σ) (s : S) (a : A) (r : ℚ) (ns : S) (na : A) (t : ℤ)
        (term : Bool) cmd agent1 model1 innerSt1,
      Dyna.call plan upd innerStep samp agent model innerSt s a r ns na t
          term = some (cmd, agent1, model1, innerSt1) →
      model1 = if term then model else Dyna.update model s a ns r) ∧
    (∀ (model : Model S A) (s : S) (a : A) (ns : S) (r : ℚ) (p : S × A),
      p ∈ assocKeys (Dyna.update model s a ns r) ↔
        p ∈ assocKeys model ∨ p = (s, a)) := by
  refine ⟨?_, ?_, ?_⟩
  · intro plan upd model samp
    induction samp with
    | nil => intro agent _; rfl
    | cons p ps ih =>
      obtain ⟨s0, a0⟩ := p
      intro agent h
      obtain ⟨v, hv⟩ := Option.isSome_iff_exists.mp (h (s0, a0) (by simp))
      obtain ⟨ns, r⟩ := v
      have hstep : Dyna.step_sim plan upd model agent s0 a0
          = some (upd agent
              (plan.end_return agent ns (agent.get_action ns) r) s0 a0) := by
        simp [Dyna.step_sim, hv]
      simpa [Dyna.simulate, List.foldlM_cons, hstep] using
        ih _ (fun q hq => h q (by simp [hq]))
  · intro plan upd innerStep samp agent model innerSt s a r ns na t term
      cmd agent1 model1 innerSt1 hcall
    cases term with
    | true =>
      cases hinner : innerStep agent innerSt s a r ns na t true with
      | none => simp [Dyna.call, hinner] at hcall
      | some res =>
        simp [Dyna.call, hinner] at hcall
        simp [hcall.2.2.1]
    | false =>
      cases hsim : Dyna.simulate plan upd (Dyna.update model s a ns r) samp
          agent with
      | none => simp [Dyna.call, hsim] at hcall
      | some ag1 =>
        cases hinner : innerStep ag1 innerSt s a r ns na t false with
        | none => simp [Dyna.call, hsim, hinner] at hcall
        | some res =>
          simp [Dyna.call, hsim, hinner] at hcall
          simp [hcall.2.2.1]
  · intro model s a ns r p
    simp [Dyna.update, mem_assocKeys_insert]

theorem dyna_simulates_only_observed_witness :
    (Dyna.simulate (Sarsa ℕ ℕ (9/10)) (fun ag _ _ _ => ag)
        [((0, 0), (0, 1))] [(0, 0)] c2Agent).isSome = true :=
  (dyna_simulates_only_observed (S := ℕ) (A := ℕ) (σ := Unit)).1
    (Sarsa ℕ ℕ (9/10)) (fun ag _ _ _ => ag) [((0, 0), (0, 1))] [(0, 0)]
    c2Agent (by decide)

lemma get_return_eq_spec {S A : Type} (P : Policy S A) (agent : Agent S A)
    (st : NStepState S A) (t tgt_t : ℤ) :
    NStepAlgo.get_return P agent st t tgt_t
      = specBackwardReturn P agent st.buffer st.T_step t tgt_t := by
  unfold NStepAlgo.get_return specBackwardReturn
  cases hbg : st.buffer.get (NStepAlgo.endT t st.T_step) with
  | none => simp [hbg]
  | some v =>
    obtain ⟨s, a, r⟩ := v
    simpa [hbg] using
      foldlM_eq_specLoop P agent st.buffer tgt_t _
        (NStepAlgo.endT t st.T_step - 1) rfl (P.end_return agent s a r)

/-- C1: for every call with `tgt_t = t - nstep + 1 ≥ 0`, the computed
return is exactly the spec's backward recursion: with
`end_t = min(t+1, T_step)`, seed the return with `terminalReturn`
applied to the buffer slot at `end_t`, then fold `stepReturn` over the
slots from `end_t - 1` down to `tgt_t + 1` inclusive (exclusive of
`tgt_t`). -/
theorem backward_return_is_spec_fold {S A : Type} (P : Policy S A)
    (agent : Agent S A) (st : NStepState S A) (nstep : ℕ) (t tgt_t : ℤ)
    (htgt : tgt_t = t - nstep + 1) (h0 : 0 ≤ tgt_t) :
    NStepAlgo.get_return P agent st t tgt_t
      = specBackwardReturn P agent st.buffer st.T_step t tgt_t :=
  get_return_eq_spec P agent st t tgt_t

theorem backward_return_is_spec_fold_witness :
    NStepAlgo.get_return (Sarsa ℕ ℕ (9/10)) c2Agent
        (NStepAlgo.stepState (NStepAlgo.init_episode 1 0 0) 1 1 0 0 true) 0 0
      = specBackwardReturn (Sarsa ℕ ℕ (9/10)) c2Agent
          (NStepAlgo.stepState (NStepAlgo.init_episode 1 0 0) 1 1 0 0
            true).buffer
          (NStepAlgo.stepState (NStepAlgo.init_episode 1 0 0) 1 1 0 0
            true).T_step 0 0 :=
  backward_return_is_spec_fold _ _ _ 1 0 0 (by decide) (by decide)

lemma tLt_stepState {S A : Type} (st : NStepState S A) (r : ℚ) (ns : S)
    (na : A) (t : ℤ) (term : Bool)
    (hT : NStepAlgo.tLt t st.T_step = true) :
    NStepAlgo.tLt t (NStepAlgo.stepState st r ns na t term).T_step
      = true := by
  cases hTs : st.T_step with
  | none =>
    cases term <;> simp [NStepAlgo.stepState, hTs, NStepAlgo.tLt] <;> omega
  | some T =>
    simp [NStepAlgo.tLt, hTs] at hT
    simp [NStepAlgo.stepState, hTs, NStepAlgo.tLt]
    exact hT

lemma endT_of_tLt {t : ℤ} {o : Option ℤ} (h : NStepAlgo.tLt t o = true) :
    NStepAlgo.endT t o = t + 1 := by
  cases o with
  | none => rfl
  | some T =>
    simp [NStepAlgo.tLt] at h
    simp [NStepAlgo.endT]
    omega

lemma stepState_buffer_of_tLt {S A : Type} (st : NStepState S A) (r : ℚ)
    (ns : S) (na : A) (t : ℤ) (term : Bool)
    (hT : NStepAlgo.tLt t st.T_step = true) :
    (NStepAlgo.stepState st r ns na t term).buffer
      = st.buffer.set (t + 1) (some (ns, na, r)) := by
  have h1 := tLt_stepState st r ns na t term hT
  simp only [NStepAlgo.stepState] at h1 ⊢
  rw [if_pos h1]

/-- C5: for `nstep = 1`, on any call with `t ≥ 0` made before the
episode horizon (`t < T_step`) on a state with the capacity-2 buffer
`init_episode` creates, the engine's output return is `terminalReturn`
applied directly to the slot `(new_s, new_a, r)` just written for this
transition — the backward loop is a no-op — so every Return Policy
degenerates to its classic one-step TD target. -/
theorem nstep_one_classic_td_target {S A : Type} (P : Policy S A)
    (agent : Agent S A) (st : NStepState S A) (s : S) (a : A) (r : ℚ)
    (ns : S) (na : A) (t : ℤ) (term : Bool) (ts : S) (ta : A) (tr : ℚ)
    (h0 : 0 ≤ t) (hcap : st.buffer.cap = 2)
    (hlen : st.buffer.data.length = 2)
    (hT : NStepAlgo.tLt t st.T_step = true)
    (hslot : st.buffer.get t = some (ts, ta, tr)) :
    NStepAlgo.call P 1 agent st s a r ns na t term
      = some (Command.full (P.end_return agent ns na r) ts ta
            (NStepAlgo.tgtAtHorizon t
              (NStepAlgo.stepState st r ns na t term).T_step),
          NStepAlgo.stepState st r ns na t term) := by
  have hT1 := tLt_stepState st r ns na t term hT
  have hbuf := stepState_buffer_of_tLt st r ns na t term hT
  have hend : NStepAlgo.endT t (NStepAlgo.stepState st r ns na t term).T_step
      = t + 1 := endT_of_tLt hT1
  have hmod : (((t + 1) % (st.buffer.cap : ℤ)).toNat)
      ≠ ((t % (st.buffer.cap : ℤ)).toNat) := by
    rw [hcap]; push_cast; omega
  have hget_t : (NStepAlgo.stepState st r ns na t term).buffer.get t
      = some (ts, ta, tr) := by
    rw [hbuf, Buffer.get_set_ne _ _ _ _ hmod, hslot]
  have hget_t1 : (NStepAlgo.stepState st r ns na t term).buffer.get (t + 1)
      = some (ns, na, r) := by
    rw [hbuf]
    exact Buffer.get_set_self _ _ _ (by rw [hcap, hlen]; push_cast; omega)
  have hret : NStepAlgo.get_return P agent
      (NStepAlgo.stepState st r ns na t term) t t
      = some (P.end_return agent ns na r) := by
    simp only [NStepAlgo.get_return, hend, hget_t1]
    have e1 : t + 1 - 1 = t := by ring
    rw [e1, rangeDesc_eq_nil le_rfl]
    rfl
  simp only [NStepAlgo.call, Nat.cast_one]
  have e : t - 1 + 1 = t := by ring
  rw [e, if_neg (by omega)]
  simp [hget_t, hret]

theorem nstep_one_classic_td_target_witness :
    NStepAlgo.call (Sarsa ℕ ℕ (9/10)) 1 c2Agent
        (NStepAlgo.init_episode 1 0 0) 0 0 1 1 0 0 true
      = some (Command.full ((Sarsa ℕ ℕ (9/10)).end_return c2Agent 1 0 1) 0 0
            (NStepAlgo.tgtAtHorizon 0
              (NStepAlgo.stepState (NStepAlgo.init_episode 1 0 0) 1 1 0 0
                true).T_step),
          NStepAlgo.stepState (NStepAlgo.init_episode 1 0 0) 1 1 0 0 true) :=
  nstep_one_classic_td_target (Sarsa ℕ ℕ (9/10)) c2Agent
    (NStepAlgo.init_episode 1 0 0) 0 0 1 1 0 0 true 0 0 0
    (by decide) rfl rfl rfl rfl

/-- C8: PrioritizedSweep's heap entries are the raw `(state, action)`
pairs — `update_pq` pushes `(s, a)` itself, with no residual magnitude
attached as a key — so a pop during `simulate` takes the queue head,
which is minimal under the pairs' natural lexicographic order (not the
entry of largest Bellman-error magnitude); pushes preserve sortedness,
so the head is minimal at every reachable queue state. -/
theorem pq_entries_raw_pop_natural_min {S A : Type} [LinearOrder S]
    [LinearOrder A] :
    (∀ (plan : Policy S A) (theta : ℚ) (agent : Agent S A) (s : S) (a : A)
        (ns : S) (na : A) (r : ℚ) (pq : List (S × A)),
      PrioritizedSweep.update_pq plan theta agent s a ns na r pq
        = if theta < |plan.end_return agent ns na r - agent.q s a|
          then List.orderedInsert tupLe (s, a) pq else pq) ∧
    (∀ (plan : Policy S A) (theta : ℚ) (agent : Agent S A) (s : S) (a : A)
        (ns : S) (na : A) (r : ℚ) (pq : List (S × A)),
      List.Sorted tupLe pq →
      List.Sorted tupLe
        (PrioritizedSweep.update_pq plan theta agent s a ns na r pq)) ∧
    (∀ (p : S × A) (rest : List (S × A)), List.Sorted tupLe (p :: rest) →
      ∀ q ∈ p :: rest, tupLe p q) := by
  refine ⟨fun _ _ _ _ _ _ _ _ _ => rfl, ?_, ?_⟩
  · intro plan theta agent s a ns na r pq h
    simp only [PrioritizedSweep.update_pq]
    split
    · exact List.Sorted.orderedInsert (r := tupLe) (s, a) pq h
    · exact h
  · intro p rest hs q hq
    rcases List.mem_cons.mp hq with h | h
    · exact h ▸ Or.inr ⟨rfl, le_refl _⟩
    · exact List.rel_of_sorted_cons hs q h

theorem pq_entries_raw_pop_natural_min_witness :
    tupLe ((0, 0) : ℕ × ℕ) (1, 1) :=
  (pq_entries_raw_pop_natural_min (S := ℕ) (A := ℕ)).2.2 (0, 0) [(1, 1)]
    (by simp [List.sorted_cons, tupLe]) (1, 1) (by simp)

lemma sweepFold_perm {S A : Type} [LinearOrder S] [LinearOrder A]
    (plan : Policy S A) (theta : ℚ) (agent : Agent S A) (model : Model S A)
    (s : S) (a : A) :
    ∀ (preds : List (S × A)) (q : List (S × A)),
      (∀ p ∈ preds, (assocLookup p model).isSome = true) →
      ∃ q', preds.foldlM
          (fun acc p => do
            let (_, r2) ← assocLookup p model
            pure (PrioritizedSweep.update_pq plan theta agent p.1 p.2 s a r2
              acc))
          q = some q'
        ∧ q'.Perm (q ++ preds.filter (fun p =>
            match assocLookup p model with
            | some (_, r2) =>
              decide (theta <
                |plan.end_return agent s a r2 - agent.q p.1 p.2|)
            | none => false)) := by
  intro preds
  induction preds with
  | nil => intro q _; exact ⟨q, rfl, by simp⟩
  | cons p ps ih =>
    intro q h
    obtain ⟨v, hv⟩ := Option.isSome_iff_exists.mp (h p (by simp))
    obtain ⟨ns2, r2⟩ := v
    by_cases hc : theta < |plan.end_return agent s a r2 - agent.q p.1 p.2|
    · obtain ⟨q', hq', hperm⟩ :=
        ih (List.orderedInsert tupLe (p.1, p.2) q) (fun x hx => h x (by simp [hx]))
      refine ⟨q', ?_, ?_⟩
      · simpa [List.foldlM_cons, hv, PrioritizedSweep.update_pq, hc] using hq'
      · have h1 : (List.orderedInsert tupLe (p.1, p.2) q).Perm ((p.1, p.2) :: q) :=
          List.perm_orderedInsert _ _ _
        have h2 : q'.Perm (((p.1, p.2) :: q) ++ ps.filter _) :=
          hperm.trans (h1.append_right _)
        rw [List.filter_cons]
        simp only [hv, decide_eq_true_eq]
        rw [if_pos hc]
        refine h2.trans ?_
        simpa [Prod.mk.eta] using (List.perm_middle (a := p)).symm
    · obtain ⟨q', hq', hperm⟩ := ih q (fun x hx => h x (by simp [hx]))
      refine ⟨q', ?_, ?_⟩
      · simpa [List.foldlM_cons, hv, PrioritizedSweep.update_pq, hc] using hq'
      · rw [List.filter_cons]
        simp only [hv, decide_eq_true_eq]
        rw [if_neg hc]
        exact hperm

/-- C7: `update_pq` enqueues `(s, a)` exactly when the magnitude of the
difference between the one-step planning return
`plan_algo.end_return(new_s, new_a, r)` and the agent's current
`Q(s, a)` strictly exceeds `theta`; and a `simulate` iteration that pops
a pair with state `s` replays it and then, for every predecessor of `s`
in the reverse model, recomputes the residual with that predecessor's
modeled reward (against the post-replay agent) and re-enqueues it
exactly when the residual exceeds `theta`: as a multiset, the resulting
queue is the popped queue's tail plus exactly the filtered
predecessors. -/
theorem prioritized_sweep_residual_gating {S A : Type} [LinearOrder S]
    [LinearOrder A] :
    (∀ (plan : Policy S A) (theta : ℚ) (agent : Agent S A) (s : S) (a : A)
        (ns : S) (na : A) (r : ℚ) (pq : List (S × A)),
      (theta < |plan.end_return agent ns na r - agent.q s a| →
        PrioritizedSweep.update_pq plan theta agent s a ns na r pq
          = List.orderedInsert tupLe (s, a) pq) ∧
      (¬ theta < |plan.end_return agent ns na r - agent.q s a| →
        PrioritizedSweep.update_pq plan theta agent s a ns na r pq = pq)) ∧
    (∀ (plan : Policy S A) (upd : Agent S A → ℚ → S → A → Agent S A)
        (theta : ℚ) (agent : Agent S A) (st : PSState S A) (s : S) (a : A)
        (rest : List (S × A)) (agent1 : Agent S A) (st1 : PSState S A)
        (preds : List (S × A)),
      PrioritizedSweep.simStep plan upd theta agent st s a rest
          = some (agent1, st1) →
      assocLookup s st.rev_model = some preds →
      (∀ p ∈ preds, (assocLookup p st.model).isSome = true) →
      st1.pq.Perm (rest ++ preds.filter (fun p =>
        match assocLookup p st.model with
        | some (_, r2) =>
          decide (theta <
            |plan.end_return agent1 s a r2 - agent1.q p.1 p.2|)
        | none => false))) := by
  constructor
  · intro plan theta agent s a ns na r pq
    constructor
    · intro h; simp [PrioritizedSweep.update_pq, h]
    · intro h; simp [PrioritizedSweep.update_pq, h]
  · intro plan upd theta agent st s a rest agent1 st1 preds hsim hrev hmod
    cases hstep : Dyna.step_sim plan upd st.model agent s a with
    | none => simp [PrioritizedSweep.simStep, hstep] at hsim
    | some ag1 =>
      obtain ⟨q', hq', hperm⟩ :=
        sweepFold_perm plan theta ag1 st.model s a preds rest hmod
      have hsweep : PrioritizedSweep.sweepPreds plan theta ag1 st s a rest
          = some q' := by
        simpa [PrioritizedSweep.sweepPreds, hrev] using hq'
      simp [PrioritizedSweep.simStep, hstep, hsweep] at hsim
      obtain ⟨ha, hst⟩ := hsim
      subst ha
      rw [← hst]
      exact hperm

theorem prioritized_sweep_residual_gating_witness :
    (c10St1.pq).Perm ([] ++ ([(0, 0)] : List (ℕ × ℕ)).filter (fun p =>
      match assocLookup p c10St1.model with
      | some (_, r2) =>
        decide ((0 : ℚ) <
          |(Sarsa ℕ ℕ 0).end_return zeroAgent 0 0 r2 - zeroAgent.q p.1 p.2|)
      | none => false)) :=
  (prioritized_sweep_residual_gating (S := ℕ) (A := ℕ)).2 (Sarsa ℕ ℕ 0)
    idUpd 0 zeroAgent c10St1 0 0 [] zeroAgent c10St1 [(0, 0)]
    (by simp [PrioritizedSweep.simStep, Dyna.step_sim,
      PrioritizedSweep.sweepPreds, PrioritizedSweep.update_pq, assocLookup,
      Sarsa, zeroAgent, idUpd, c10St1, tupLe])
    rfl (by decide)

/-- C10: the priority queue does not deduplicate.  Observing the
self-loop transition `(s=0, a=0, r=1, new_s=0)` twice (with `theta = 0`,
`nsim = 2`, an agent whose estimates stay zero): the first `update`
pushes `(0, 0)`; the interleaved `simulate` replays it twice and leaves
the queue at `[(0, 0)]`; the second `update` pushes `(0, 0)` again
without checking the queue, so the queue holds two entries for the same
pair, and the following single `simulate` call pops and replays that
pair twice. -/
theorem pq_no_dedup_duplicate_replay :
    PrioritizedSweep.update (Sarsa ℕ ℕ 0) 0 zeroAgent ⟨[], [], []⟩ 0 0 0 0 1
        = some c10St1
    ∧ PrioritizedSweep.simulate (Sarsa ℕ ℕ 0) idUpd 0 zeroAgent c10St1 2
        = some (zeroAgent, c10St1, [(0, 0), (0, 0)])
    ∧ PrioritizedSweep.update (Sarsa ℕ ℕ 0) 0 zeroAgent c10St1 0 0 0 0 1
        = some c10St2
    ∧ c10St2.pq = [(0, 0), (0, 0)]
    ∧ PrioritizedSweep.simulate (Sarsa ℕ ℕ 0) idUpd 0 zeroAgent c10St2 2
        = some (zeroAgent, c10St2, [(0, 0), (0, 0)]) := by
  refine ⟨?_, ?_, ?_, rfl, ?_⟩
  · simp [PrioritizedSweep.update, PrioritizedSweep.update_pq, Dyna.update,
      assocLookup, assocInsert, setAdd, setRemove, Sarsa, zeroAgent,
      c10St1, tupLe]
  · simp [PrioritizedSweep.simulate, PrioritizedSweep.simStep,
      Dyna.step_sim, PrioritizedSweep.sweepPreds,
      PrioritizedSweep.update_pq, assocLookup, Sarsa, zeroAgent, idUpd,
      c10St1, tupLe]
  · simp [PrioritizedSweep.update, PrioritizedSweep.update_pq, Dyna.update,
      assocLookup, assocInsert, setAdd, setRemove, Sarsa, zeroAgent,
      c10St1, c10St2, tupLe, List.erase_cons]
    decide
  · simp [PrioritizedSweep.simulate, PrioritizedSweep.simStep,
      Dyna.step_sim, PrioritizedSweep.sweepPreds,
      PrioritizedSweep.update_pq, assocLookup, Sarsa, zeroAgent, idUpd,
      c10St2, tupLe, List.orderedInsert]

lemma discountedSum_succ (g : ℚ) (rew : ℤ → ℚ) (lo : ℤ) (n : ℕ) :
    discountedSum g rew lo (n + 1)
      = discountedSum g rew lo n + g ^ n * rew (lo + n) := by
  unfold discountedSum
  rw [List.range_succ]
  simp

lemma specLoop_linear {S A : Type} (g : ℚ)
    (endR : Agent S A → S → A → ℚ → ℚ) (agent : Agent S A)
    (buf : Buffer (Slot S A)) (σf : ℤ → S) (αf : ℤ → A) (ρf : ℤ → ℚ) :
    ∀ (n : ℕ) (tgt_t i : ℤ), (i - tgt_t).toNat = n →
      (∀ j : ℤ, tgt_t + 1 ≤ j → j ≤ i →
        buf.get j = some (σf j, αf j, ρf j)) →
      ∀ ret : ℚ,
        specLoop ⟨endR, fun _ _ _ r ret => r + g * ret⟩ agent buf tgt_t ret i
          = some (discountedSum g ρf (tgt_t + 1) n + g ^ n * ret) := by
  intro n
  induction n with
  | zero =>
    intro tgt_t i h _ ret
    rw [specLoop, dif_neg (by omega)]
    simp [discountedSum]
  | succ n ih =>
    intro tgt_t i h hslots ret
    rw [specLoop, dif_pos (by omega), hslots i (by omega) le_rfl]
    show specLoop ⟨endR, fun _ _ _ r ret => r + g * ret⟩ agent buf tgt_t
        (ρf i + g * ret) (i - 1)
      = some (discountedSum g ρf (tgt_t + 1) (n + 1) + g ^ (n + 1) * ret)
    rw [ih tgt_t (i - 1) (by omega) (fun j h1 h2 => hslots j h1 (by omega))]
    have hi : i = tgt_t + 1 + (n : ℤ) := by omega
    rw [discountedSum_succ, hi]
    congr 1
    ring

/-- C3 (amended): when the episode has ended within the n-step window
(`T_step ≤ t + 1`, so `end_t = T_step`) and the window's slots are
populated, for every Return Policy whose `stepReturn` is `r + γ·ret` the
computed return equals the discounted sum of the buffered rewards from
`tgt_t + 1` through `T_step - 1` plus `γ^(T_step - 1 - tgt_t)` times
`terminalReturn` applied to the slot stored at `T_step`; the claim's
bootstrap-free reading holds only when that `terminalReturn` adds no
value-estimate term to the stored reward, which the code does not
enforce. -/
theorem terminal_window_return_decomposition {S A : Type} (g : ℚ)
    (endR : Agent S A → S → A → ℚ → ℚ) (agent : Agent S A)
    (st : NStepState S A) (t tgt_t T : ℤ) (σf : ℤ → S) (αf : ℤ → A)
    (ρf : ℤ → ℚ) (hT : st.T_step = some T) (hend : T ≤ t + 1)
    (htgt : tgt_t < T)
    (hslots : ∀ i : ℤ, tgt_t + 1 ≤ i → i ≤ T →
      st.buffer.get i = some (σf i, αf i, ρf i)) :
    NStepAlgo.get_return ⟨endR, fun _ _ _ r ret => r + g * ret⟩ agent st t
        tgt_t
      = some (discountedSum g ρf (tgt_t + 1) (T - 1 - tgt_t).toNat
          + g ^ (T - 1 - tgt_t).toNat
            * endR agent (σf T) (αf T) (ρf T)) := by
  have hendT : NStepAlgo.endT t st.T_step = T := by
    simp [NStepAlgo.endT, hT]
    omega
  rw [get_return_eq_spec]
  simp only [specBackwardReturn, hendT]
  rw [hslots T (by omega) le_rfl]
  exact specLoop_linear g endR agent st.buffer σf αf ρf
    ((T - 1) - tgt_t).toNat tgt_t (T - 1) rfl
    (fun j h1 h2 => hslots j h1 (by omega))
    (endR agent (σf T) (αf T) (ρf T))

theorem terminal_window_return_decomposition_witness :
    NStepAlgo.get_return
        (⟨(Sarsa ℕ ℕ (9/10)).end_return,
          fun _ _ _ r ret => r + (9/10) * ret⟩ : Policy ℕ ℕ) c3Agent c3St 0 0
      = some (discountedSum (9/10) c3Rho (0 + 1) (((1 : ℤ) - 1 - 0).toNat)
          + (9/10) ^ (((1 : ℤ) - 1 - 0).toNat)
            * (Sarsa ℕ ℕ (9/10)).end_return c3Agent (c3Sig 1) (c3Alp 1)
                (c3Rho 1)) :=
  terminal_window_return_decomposition (9/10)
    (Sarsa ℕ ℕ (9/10)).end_return c3Agent c3St 0 0 1 c3Sig c3Alp c3Rho
    rfl (by decide) (by decide)
    (by
      intro i h1 h2
      have hi : i = 1 := by omega
      subst hi
      rfl)

/-- C3 fails as stated: in the single-step terminal Sarsa scenario with
`γ = 0.9` and `Q(1, 0) = 5`, the computed return is `1 + 0.9·5 = 5.5`,
not the discounted sum (here `1`) of the buffered rewards from
`tgt_t + 1` through `T_step`: the seed `terminalReturn` adds `γ·Q` at
the stored terminal pair, a bootstrapped value-estimate term that does
not vanish. -/
theorem terminal_window_return_keeps_bootstrap_term :
    NStepAlgo.get_return (Sarsa ℕ ℕ (9/10)) c3Agent c3St 0 0
      ≠ some (discountedSum (9/10) c3Rho 1 1) := by
  have h1 : NStepAlgo.get_return (Sarsa ℕ ℕ (9/10)) c3Agent c3St 0 0
      = some (11/2) := by
    simp [c3St, NStepAlgo.get_return, NStepAlgo.stepState,
      NStepAlgo.init_episode, NStepAlgo.endT, NStepAlgo.tLt,
      NStepAlgo.rangeDesc, Buffer.new, Buffer.get, Buffer.set, Sarsa,
      c3Agent, List.replicate]
    norm_num
  have h2 : discountedSum (9/10) c3Rho 1 1 = 1 := by
    simp [discountedSum, c3Rho, List.range_succ]
  rw [h1, h2]
  simp
  norm_num
